import Mathlib

/-!
Verification development for the hierarchical PDF parsing engine of the
fa-contract-comparison repository
(scripts/pdf_preprocessing/hierarchical_parser.py and hierarchical_json.py).

The parser is embedded shallowly:
* Python floats (indentations, font sizes) become `Rat`; every value and
  comparison appearing in the development is exact in both representations.
* A text block dictionary becomes `Block`, a record of `Option` fields; a
  missing dictionary key is `none`, and reading a missing key produces
  `PyErr.keyError`, mirroring Python's `KeyError`.
* The mutable `HierarchyNode` objects (aliased from both the open stack and
  the parents' `children` lists) become an arena `List HierarchyNode`
  addressed by creation index; the stack and children lists hold indices.
* The regexes of the classifier are hand-translated to character-list
  matchers with Python `re.match` semantics (match anchored at the start,
  greedy with backtracking, `.` not matching a newline, `re.IGNORECASE`
  where the source compiles with that flag).
-/

/- `Rat.add` is irreducible in Batteries, which blocks `decide` on the
concrete scenario evaluations; restoring reducibility is sound (it only
affects elaboration-time unfolding). -/
set_option allowUnsafeReducibility true

attribute [semireducible] Rat.add

/-- Python `\s` on the ASCII range (also the set used by `str.strip`). -/
def isPySpace (c : Char) : Bool :=
  c.toNat == 32 || c.toNat == 9 || c.toNat == 10 ||
  c.toNat == 13 || c.toNat == 11 || c.toNat == 12

/-- The regex class `[A-Z]`. -/
def isUpperAZ (c : Char) : Bool := 65 ≤ c.toNat && c.toNat ≤ 90

/-- The regex class `[a-z]`. -/
def isLowerAZ (c : Char) : Bool := 97 ≤ c.toNat && c.toNat ≤ 122

/-- The regex class `\d`. -/
def isDigit09 (c : Char) : Bool := 48 ≤ c.toNat && c.toNat ≤ 57

/-- ASCII upper-casing on character codes, for `re.IGNORECASE` matching. -/
def upNat (n : Nat) : Nat := if 97 ≤ n ∧ n ≤ 122 then n - 32 else n

/-- Case-insensitive character comparison (ASCII), as under `re.IGNORECASE`. -/
def charEqCI (a b : Char) : Bool := upNat a.toNat == upNat b.toNat

/-- The class `[IVXLCDM]` compiled with `re.IGNORECASE`. -/
def romanCI (c : Char) : Bool :=
  let u := upNat c.toNat
  u == 73 || u == 86 || u == 88 || u == 76 || u == 67 || u == 68 || u == 77

/-- The class `[IVXLCDM\d]` compiled with `re.IGNORECASE`. -/
def romanDigitCI (c : Char) : Bool := isDigit09 c || romanCI c

/-- The class `[A-Z]` compiled with `re.IGNORECASE` (any ASCII letter). -/
def alphaCI (c : Char) : Bool := isUpperAZ c || isLowerAZ c

/-- Python `str.strip()`: drop leading and trailing whitespace. -/
def pyStrip (s : String) : String :=
  String.mk (((s.data.dropWhile isPySpace).reverse.dropWhile isPySpace).reverse)

/-- The tail regex `\s*(.*)`: skip whitespace, capture up to the first
newline (`.` does not match `\n`); deterministic since everything after
the captured group is empty. -/
def starTail (r : List Char) : List Char :=
  (r.dropWhile isPySpace).takeWhile (fun x => x != '\n')

/-- The tail regex `\s*[:.]?\s*(.*)` shared by the keyword header patterns. -/
def sepTail (r : List Char) : List Char :=
  let r1 := r.dropWhile isPySpace
  let r2 := match r1 with
    | c :: rest => if c = ':' || c = '.' then rest else r1
    | [] => r1
  starTail r2

/-- The separator `\s*[#]?\s*` of the LOA patterns. -/
def hashSep (r : List Char) : List Char :=
  let r1 := r.dropWhile isPySpace
  let r2 := match r1 with
    | c :: rest => if c = '#' then rest else r1
    | [] => r1
  r2.dropWhile isPySpace

/-- Match a literal keyword case-insensitively, returning the rest. -/
def matchLitCI : List Char → List Char → Option (List Char)
  | [], cs => some cs
  | _ :: _, [] => none
  | k :: ks, c :: cs => if charEqCI k c then matchLitCI ks cs else none

/-- Backtracking for `\s*(.+)` (the part of `\.\s+(.+)` after one mandatory
space): greedily consume whitespace, giving characters back to `(.+)` when
nothing non-empty remains for it. -/
def starThenDotPlus : List Char → Option (List Char)
  | [] => none
  | c :: rest =>
    if isPySpace c then
      match starThenDotPlus rest with
      | some g => some g
      | none =>
        if c = '\n' then none
        else some ((c :: rest).takeWhile (fun x => x != '\n'))
    else some ((c :: rest).takeWhile (fun x => x != '\n'))

/-- The regex `\s+(.+)`, with `re` backtracking semantics. -/
def spacePlusDotPlus : List Char → Option (List Char)
  | [] => none
  | c :: rest => if isPySpace c then starThenDotPlus rest else none

/-- `^\s*(C)\s*[.)]\s*(.*)` for a single-character class `C`
(the first pattern of the capital/lowercase letter item matchers). -/
def matchItemDotPat (cls : Char → Bool) (cs : List Char) : Option (String × String) :=
  match cs.dropWhile isPySpace with
  | [] => none
  | c :: rest =>
    if cls c then
      match rest.dropWhile isPySpace with
      | p :: rest2 =>
        if p = '.' || p = ')' then some (String.mk [c], String.mk (starTail rest2))
        else none
      | [] => none
    else none

/-- `^\s*\((C)\)\s*(.*)` for a single-character class `C`
(the second pattern of the capital/lowercase letter item matchers). -/
def matchItemParenPat (cls : Char → Bool) (cs : List Char) : Option (String × String) :=
  match cs.dropWhile isPySpace with
  | c0 :: c :: rest =>
    if c0 = '(' ∧ cls c then
      match rest with
      | c2 :: rest2 => if c2 = ')' then some (String.mk [c], String.mk (starTail rest2)) else none
      | [] => none
    else none
  | _ => none

/-- `^\s*(\d+)\s*[.)]\s*(.*)` (first pattern of `_is_number_header`). -/
def matchNumDotPat (cs : List Char) : Option (String × String) :=
  let cs1 := cs.dropWhile isPySpace
  let ds := cs1.takeWhile isDigit09
  if ds.isEmpty then none
  else
    match (cs1.dropWhile isDigit09).dropWhile isPySpace with
    | p :: rest2 =>
      if p = '.' || p = ')' then some (String.mk ds, String.mk (starTail rest2))
      else none
    | [] => none

/-- `^\s*\((\d+)\)\s*(.*)` (second pattern of `_is_number_header`). -/
def matchNumParenPat (cs : List Char) : Option (String × String) :=
  match cs.dropWhile isPySpace with
  | c0 :: rest =>
    if c0 = '(' then
      let ds := rest.takeWhile isDigit09
      if ds.isEmpty then none
      else
        match rest.dropWhile isDigit09 with
        | c2 :: rest2 => if c2 = ')' then some (String.mk ds, String.mk (starTail rest2)) else none
        | [] => none
    else none
  | [] => none

/-- Keyword characters for the section and LOA patterns. -/
def kwSECTION : List Char := ['S', 'E', 'C', 'T', 'I', 'O', 'N']

def kwARTICLE : List Char := ['A', 'R', 'T', 'I', 'C', 'L', 'E']

def kwPART : List Char := ['P', 'A', 'R', 'T']

def kwLETTER : List Char := ['L', 'E', 'T', 'T', 'E', 'R']

def kwOF : List Char := ['O', 'F']

def kwAGREEMENT : List Char := ['A', 'G', 'R', 'E', 'E', 'M', 'E', 'N', 'T']

def kwLOA : List Char := ['L', 'O', 'A']

def kwAPPENDIX : List Char := ['A', 'P', 'P', 'E', 'N', 'D', 'I', 'X']

/-- `^\s*KW\s+([IVXLCDM\d]+)\s*[:.]?\s*(.*)` under `re.IGNORECASE`, the shape
of the three keyword patterns of `_is_section_header`. -/
def matchSectionKwPat (kw : List Char) (cs : List Char) : Option (String × String) :=
  match matchLitCI kw (cs.dropWhile isPySpace) with
  | none => none
  | some rest =>
    match rest with
    | [] => none
    | c :: _ =>
      if isPySpace c then
        let rest1 := rest.dropWhile isPySpace
        let idchars := rest1.takeWhile romanDigitCI
        if idchars.isEmpty then none
        else some (String.mk idchars, String.mk (sepTail (rest1.dropWhile romanDigitCI)))
      else none

/-- `^\s*([IVXLCDM]{1,4})\.\s+(.+)` under `re.IGNORECASE`
(the bare roman numeral pattern of `_is_section_header`); the greedy
`{1,4}` can never succeed by giving characters back, since a shorter run is
followed by another class character, not by the required period. -/
def matchRomanDotPat (cs : List Char) : Option (String × String) :=
  let cs1 := cs.dropWhile isPySpace
  let run := cs1.takeWhile romanCI
  if 1 ≤ run.length ∧ run.length ≤ 4 then
    match cs1.dropWhile romanCI with
    | c :: tail =>
      if c = '.' then
        match spacePlusDotPlus tail with
        | some grp => some (String.mk run, String.mk grp)
        | none => none
      else none
    | [] => none
  else none

/-- The identifier alternation `(\d+|[IVXLCDM]+)` of the LOA patterns
(`re.IGNORECASE`); `\d+` is tried first, exactly as in the source regex. -/
def altNumRoman (r : List Char) : Option (List Char × List Char) :=
  let ds := r.takeWhile isDigit09
  if !ds.isEmpty then some (ds, r.dropWhile isDigit09)
  else
    let rs := r.takeWhile romanCI
    if !rs.isEmpty then some (rs, r.dropWhile romanCI) else none

/-- The identifier alternation `([A-Z]+|\d+)` of the APPENDIX pattern
(`re.IGNORECASE`, so the letter class is case-insensitive). -/
def altAlphaNum (r : List Char) : Option (List Char × List Char) :=
  let asr := r.takeWhile alphaCI
  if !asr.isEmpty then some (asr, r.dropWhile alphaCI)
  else
    let ds := r.takeWhile isDigit09
    if !ds.isEmpty then some (ds, r.dropWhile isDigit09) else none

/-- `^\s*LETTER\s+OF\s+AGREEMENT\s*[#]?\s*(\d+|[IVXLCDM]+)\s*[:.]?\s*(.*)`. -/
def matchLetterOfAgreementPat (cs : List Char) : Option (String × String) :=
  match matchLitCI kwLETTER (cs.dropWhile isPySpace) with
  | none => none
  | some r1 =>
    match r1 with
    | [] => none
    | c :: _ =>
      if isPySpace c then
        match matchLitCI kwOF (r1.dropWhile isPySpace) with
        | none => none
        | some r2 =>
          match r2 with
          | [] => none
          | c2 :: _ =>
            if isPySpace c2 then
              match matchLitCI kwAGREEMENT (r2.dropWhile isPySpace) with
              | none => none
              | some r3 =>
                match altNumRoman (hashSep r3) with
                | some (idc, rest) => some (String.mk idc, String.mk (sepTail rest))
                | none => none
            else none
      else none

/-- `^\s*LOA\s*[#]?\s*(\d+|[IVXLCDM]+)\s*[:.]?\s*(.*)`. -/
def matchLoaPat (cs : List Char) : Option (String × String) :=
  match matchLitCI kwLOA (cs.dropWhile isPySpace) with
  | none => none
  | some r1 =>
    match altNumRoman (hashSep r1) with
    | some (idc, rest) => some (String.mk idc, String.mk (sepTail rest))
    | none => none

/-- `^\s*APPENDIX\s+([A-Z]+|\d+)\s*[:.]?\s*(.*)`. -/
def matchAppendixPat (cs : List Char) : Option (String × String) :=
  match matchLitCI kwAPPENDIX (cs.dropWhile isPySpace) with
  | none => none
  | some r1 =>
    match r1 with
    | [] => none
    | c :: _ =>
      if isPySpace c then
        match altAlphaNum (r1.dropWhile isPySpace) with
        | some (idc, rest) => some (String.mk idc, String.mk (sepTail rest))
        | none => none
      else none

/-- A normalized TextBlock dictionary; `none` models a missing key. -/
structure Block where
  text : Option String := none
  page_number : Option Nat := none
  indentation_level : Option Rat := none
  avg_font_size : Option Rat := none
  dominant_font_name : Option String := none
  is_bold : Option Bool := none
  is_italic : Option Bool := none
  bbox : Option (List Rat) := none
deriving DecidableEq, Repr

/-- A Python exception escaping a dictionary access. -/
inductive PyErr where
  | keyError : String → PyErr
deriving DecidableEq, Repr

instance {ε α : Type} [DecidableEq ε] [DecidableEq α] : DecidableEq (Except ε α)
  | Except.error e, Except.error f =>
    if h : e = f then Decidable.isTrue (h ▸ rfl)
    else Decidable.isFalse (fun hh => h (by cases hh; rfl))
  | Except.error _, Except.ok _ => Decidable.isFalse (fun h => Except.noConfusion h)
  | Except.ok _, Except.error _ => Decidable.isFalse (fun h => Except.noConfusion h)
  | Except.ok a, Except.ok b =>
    if h : a = b then Decidable.isTrue (h ▸ rfl)
    else Decidable.isFalse (fun hh => h (by cases hh; rfl))

/-- Reading `block[key]`: raises `KeyError` when the key is absent. -/
def fieldOr {α : Type} (o : Option α) (key : String) : Except PyErr α :=
  match o with
  | some v => Except.ok v
  | none => Except.error (PyErr.keyError key)

/-- The parser configuration (`HierarchicalParser.__init__` defaults). -/
structure Config where
  section_font_threshold : Rat := 14
  heading_font_threshold : Rat := 12
  indentation_tolerance : Rat := 5
  base_left_margin : Rat := 72
deriving DecidableEq, Repr

def cfgDefault : Config := {}

/-- The font metadata captured for a header line. -/
structure FontChars where
  font_size : Rat
  font_name : String
  is_bold : Bool
  is_italic : Bool
deriving DecidableEq, Repr

/-- A node of the hierarchy, stored in the builder's arena; `children`
holds arena indices (the mutable Python objects are aliased from the open
stack and from their parent's `children` list, which the arena models). -/
structure HierarchyNode where
  id : String := ""
  type : String := ""
  identifier_text : Option String := none
  title_text : Option String := none
  content_text_blocks : List Block := []
  page_number_start : Nat := 1
  page_number_end : Nat := 1
  children : List Nat := []
  font_characteristics_header : Option FontChars := none
  indentation_header : Option Rat := none
deriving DecidableEq, Repr

instance : Inhabited HierarchyNode := ⟨{}⟩

/-- The builder's mutable state: node arena (indexed in creation order),
open stack (head = top = innermost open node), roots, and id counter. -/
structure ParserState where
  nodes : List HierarchyNode := []
  stack : List Nat := []
  roots : List Nat := []
  next_node_id : Nat := 1
deriving DecidableEq, Repr

def initState : ParserState := {}

/-- Replace the arena node at index `i` by `f` of it (in-place mutation of
the aliased Python object). -/
def updateNode (st : ParserState) (i : Nat) (f : HierarchyNode → HierarchyNode) : ParserState :=
  {st with nodes := st.nodes.set i (f (st.nodes.getD i default))}

/-- `_is_section_header`.  The accepting condition does not depend on which
of the four patterns matched, so the source's per-pattern
match-then-validate loop is equivalent to matching the first pattern and
then validating once. -/
def isSectionHeader (cfg : Config) (text : String) (font_size : Rat)
    (is_bold : Bool) (indentation : Rat) : Option (String × String) :=
  match (matchSectionKwPat kwSECTION text.data).orElse (fun _ =>
        (matchSectionKwPat kwARTICLE text.data).orElse (fun _ =>
        (matchSectionKwPat kwPART text.data).orElse (fun _ =>
        matchRomanDotPat text.data))) with
  | some (idf, tit) =>
    if indentation < cfg.base_left_margin + 20 ∨
       cfg.section_font_threshold ≤ font_size ∨ is_bold = true
    then some (idf, pyStrip tit) else none
  | none => none

/-- `_is_loa_header` (same first-match-then-validate equivalence). -/
def isLoaHeader (cfg : Config) (text : String) (font_size : Rat)
    (is_bold : Bool) (indentation : Rat) : Option (String × String) :=
  match (matchLetterOfAgreementPat text.data).orElse (fun _ =>
        (matchLoaPat text.data).orElse (fun _ =>
        matchAppendixPat text.data)) with
  | some (idf, tit) =>
    if indentation < cfg.base_left_margin + 20 ∨
       cfg.heading_font_threshold ≤ font_size ∨ is_bold = true
    then some (idf, pyStrip tit) else none
  | none => none

/-- `_is_capital_letter_header`. -/
def isCapitalLetterHeader (cfg : Config) (text : String) (indentation : Rat)
    (parent_indent : Rat) : Option (String × String) :=
  match (matchItemDotPat isUpperAZ text.data).orElse (fun _ =>
        matchItemParenPat isUpperAZ text.data) with
  | some (idf, tit) =>
    if parent_indent + cfg.indentation_tolerance < indentation
    then some (idf, pyStrip tit) else none
  | none => none

/-- `_is_number_header`. -/
def isNumberHeader (cfg : Config) (text : String) (indentation : Rat)
    (parent_indent : Rat) : Option (String × String) :=
  match (matchNumDotPat text.data).orElse (fun _ => matchNumParenPat text.data) with
  | some (idf, tit) =>
    if parent_indent + cfg.indentation_tolerance < indentation
    then some (idf, pyStrip tit) else none
  | none => none

/-- `_is_lowercase_letter_header`. -/
def isLowercaseLetterHeader (cfg : Config) (text : String) (indentation : Rat)
    (parent_indent : Rat) : Option (String × String) :=
  match (matchItemDotPat isLowerAZ text.data).orElse (fun _ =>
        matchItemParenPat isLowerAZ text.data) with
  | some (idf, tit) =>
    if parent_indent + cfg.indentation_tolerance < indentation
    then some (idf, pyStrip tit) else none
  | none => none

/-- `_get_current_parent_indentation`: Python's
`stack[-1].indentation_header or base_left_margin`, where `or` falls back
on the falsy values `None` and `0.0`. -/
def getCurrentParentIndentation (cfg : Config) (st : ParserState) : Rat :=
  match st.stack with
  | i :: _ =>
    match (st.nodes.getD i default).indentation_header with
    | some x => if x = 0 then cfg.base_left_margin else x
    | none => cfg.base_left_margin
  | [] => cfg.base_left_margin

/-- `_identify_header`: reads the four block fields (raising `KeyError` on
a missing one), then runs the classifier cascade from highest priority to
lowest. -/
def identifyHeader (cfg : Config) (st : ParserState) (b : Block) :
    Except PyErr (Option (String × String × String)) := do
  let t ← fieldOr b.text "text"
  let text := pyStrip t
  let font_size ← fieldOr b.avg_font_size "avg_font_size"
  let is_bold ← fieldOr b.is_bold "is_bold"
  let indentation ← fieldOr b.indentation_level "indentation_level"
  match isSectionHeader cfg text font_size is_bold indentation with
  | some (i, ti) => pure (some ("section", i, ti))
  | none =>
  match isLoaHeader cfg text font_size is_bold indentation with
  | some (i, ti) => pure (some ("loa", i, ti))
  | none =>
  let parent_indent := getCurrentParentIndentation cfg st
  match isCapitalLetterHeader cfg text indentation parent_indent with
  | some (i, ti) => pure (some ("capital_letter_item", i, ti))
  | none =>
  match isNumberHeader cfg text indentation parent_indent with
  | some (i, ti) => pure (some ("number_item", i, ti))
  | none =>
  match isLowercaseLetterHeader cfg text indentation parent_indent with
  | some (i, ti) => pure (some ("lowercase_letter_item", i, ti))
  | none => pure none

/-- The `hierarchy_levels` table of `_close_nodes_for_level`
(`dict.get(type, 5)`). -/
def hierarchyLevel (t : String) : Nat :=
  if t = "section" then 1
  else if t = "loa" then 1
  else if t = "capital_letter_item" then 2
  else if t = "number_item" then 3
  else if t = "lowercase_letter_item" then 4
  else if t = "paragraph" then 5
  else 5

/-- Structural level of the arena node at index `i`. -/
def levelAt (nodes : List HierarchyNode) (i : Nat) : Nat :=
  hierarchyLevel ((nodes.getD i default).type)

/-- The pop loop of `_close_nodes_for_level`: pop while the top node's
level is `≥` the new header's level. -/
def closeStack (nodes : List HierarchyNode) (newLevel : Nat) : List Nat → List Nat
  | [] => []
  | i :: rest =>
    if newLevel ≤ levelAt nodes i then closeStack nodes newLevel rest
    else i :: rest

/-- `_close_nodes_for_level`. -/
def closeNodesForLevel (st : ParserState) (newType : String) : ParserState :=
  {st with stack := closeStack st.nodes (hierarchyLevel newType) st.stack}

/-- Zero-padding of `f"node_{n:06d}"`. -/
def pad6 (n : Nat) : String :=
  let s := toString n
  String.mk (List.replicate (6 - s.length) '0') ++ s

/-- `_generate_node_id`. -/
def generateNodeId (st : ParserState) : String × ParserState :=
  ("node_" ++ pad6 st.next_node_id, {st with next_node_id := st.next_node_id + 1})

/-- `_handle_header`.  Mutations happen in source order: the stack is
popped and the id counter advanced before the block's fields are read, so
a `KeyError` (`some err` result) leaves those mutations in place, exactly
as on the Python instance. -/
def handleHeader (st : ParserState) (b : Block)
    (header_type identifier title : String) : ParserState × Option PyErr :=
  let st1 := closeNodesForLevel st header_type
  let (nid, st2) := generateNodeId st1
  match b.page_number with
  | none => (st2, some (PyErr.keyError "page_number"))
  | some page =>
  match b.avg_font_size with
  | none => (st2, some (PyErr.keyError "avg_font_size"))
  | some fs =>
  match b.dominant_font_name with
  | none => (st2, some (PyErr.keyError "dominant_font_name"))
  | some fname =>
  match b.is_bold with
  | none => (st2, some (PyErr.keyError "is_bold"))
  | some fbold =>
  match b.is_italic with
  | none => (st2, some (PyErr.keyError "is_italic"))
  | some fitalic =>
  match b.indentation_level with
  | none => (st2, some (PyErr.keyError "indentation_level"))
  | some ind =>
  let node : HierarchyNode :=
    { id := nid, type := header_type, identifier_text := some identifier,
      title_text := some title, content_text_blocks := [],
      page_number_start := page, page_number_end := page, children := [],
      font_characteristics_header :=
        some { font_size := fs, font_name := fname, is_bold := fbold, is_italic := fitalic },
      indentation_header := some ind }
  let newIdx := st2.nodes.length
  let st3 := {st2 with nodes := st2.nodes ++ [node]}
  let st4 :=
    match st3.stack with
    | parent :: _ => updateNode st3 parent (fun n => {n with children := n.children ++ [newIdx]})
    | [] => {st3 with roots := st3.roots ++ [newIdx]}
  ({st4 with stack := newIdx :: st4.stack}, none)

/-- `_handle_content`.  With a non-empty stack the block is appended to the
top node's content before `block["page_number"]` is read, so a missing page
number leaves the appended block behind (as in Python).  With an empty
stack the warning's f-string itself reads `block['page_number']`. -/
def handleContent (st : ParserState) (b : Block) : ParserState × Option PyErr :=
  match st.stack with
  | top :: _ =>
    let st1 := updateNode st top
      (fun n => {n with content_text_blocks := n.content_text_blocks ++ [b]})
    match b.page_number with
    | some p => (updateNode st1 top (fun n => {n with page_number_end := p}), none)
    | none => (st1, some (PyErr.keyError "page_number"))
  | [] =>
    match b.page_number with
    | some _ => (st, none)
    | none => (st, some (PyErr.keyError "page_number"))

/-- `_process_text_block`: the `try` covers classification and handling; on
any exception the block degrades to content handling — which can itself
raise, and such an exception propagates out uncaught. -/
def processTextBlock (cfg : Config) (st : ParserState) (b : Block) :
    ParserState × Option PyErr :=
  match identifyHeader cfg st b with
  | Except.error _ => handleContent st b
  | Except.ok (some (ht, idf, tit)) =>
    match handleHeader st b ht idf tit with
    | (st1, none) => (st1, none)
    | (st1, some _) => handleContent st1 b
  | Except.ok none =>
    match handleContent st b with
    | (st1, none) => (st1, none)
    | (st1, some _) => handleContent st1 b

/-- The block loop of `parse_document`; an uncaught exception aborts the
loop, carrying the state mutated so far. -/
def processBlocks (cfg : Config) (st : ParserState) :
    List Block → ParserState × Option PyErr
  | [] => (st, none)
  | b :: rest =>
    match processTextBlock cfg st b with
    | (st1, none) => processBlocks cfg st1 rest
    | (st1, some e) => (st1, some e)

/-- `parse_document`: fresh state, all blocks in page order, then
`_close_all_nodes` (clear the stack); an uncaught per-block exception
escapes to the caller (`Except.error`). -/
def parse_document (cfg : Config) (pages : List (List Block)) :
    Except PyErr ParserState :=
  match processBlocks cfg initState pages.flatten with
  | (st, none) => Except.ok {st with stack := []}
  | (_, some e) => Except.error e

/-!  Embedding of `hierarchical_json.py`.  The serializer consumes the
finished (immutable) node trees, so here `HNodeTree` is the tree view of a
`HierarchyNode` with its children materialized in place of arena indices. -/

/-- A primitive JSON value stored in the auxiliary metadata dictionaries. -/
inductive PVal where
  | str : String → PVal
  | nat : Nat → PVal
  | bool : Bool → PVal
deriving DecidableEq, Repr

/-- A Python dictionary with string keys (insertion ordered). -/
abbrev PDict := List (String × PVal)

/-- Python `d[k] = v`: update in place when the key exists, else append. -/
def pyDictSet : PDict → String → PVal → PDict
  | [], k, v => [(k, v)]
  | (k0, v0) :: t, k, v =>
    if k0 = k then (k0, v) :: t else (k0, v0) :: pyDictSet t k v

/-- Python `d.get(k)`. -/
def pdictLookup : PDict → String → Option PVal
  | [], _ => none
  | (k0, v0) :: t, k => if k0 = k then some v0 else pdictLookup t k

/-- A finished `HierarchyNode` tree (children materialized). -/
inductive HNodeTree where
  | mk (id : String) (type : String) (identifier_text : Option String)
       (title_text : Option String) (content_text_blocks : List Block)
       (page_number_start page_number_end : Nat) (children : List HNodeTree)
       (font_characteristics_header : Option FontChars)
       (indentation_header : Option Rat) : HNodeTree

/-- Materialize the arena node at index `i` as a tree (children indices are
always larger than the parent's, so arena length is enough fuel). -/
def materialize (nodes : List HierarchyNode) : Nat → Nat → HNodeTree
  | 0, i =>
    let n := nodes.getD i default
    HNodeTree.mk n.id n.type n.identifier_text n.title_text n.content_text_blocks
      n.page_number_start n.page_number_end [] n.font_characteristics_header
      n.indentation_header
  | fuel + 1, i =>
    let n := nodes.getD i default
    HNodeTree.mk n.id n.type n.identifier_text n.title_text n.content_text_blocks
      n.page_number_start n.page_number_end (n.children.map (materialize nodes fuel))
      n.font_characteristics_header n.indentation_header

/-- Per-content-block rendering metadata (`metadata["content_blocks"]`
entries, built with `dict.get` defaults). -/
structure ContentBlockMeta where
  page_number : Nat
  bbox : List Rat
  font_size : Rat
  font_name : String
  is_bold : Bool
  is_italic : Bool
deriving DecidableEq, Repr

/-- The optional `metadata` dictionary of a converted node. -/
structure JsonMetadata where
  font_characteristics : Option FontChars := none
  indentation : Option Rat := none
  content_blocks : Option (List ContentBlockMeta) := none
deriving DecidableEq, Repr

/-- A node of the hierarchical JSON output of `convert_node_to_json`. -/
inductive JsonNode where
  | mk (id : String) (type : String) (identifier_text : Option String)
       (title_text : Option String) (content_text : String)
       (page_number_start page_number_end : Nat) (children : List JsonNode)
       (metadata : Option JsonMetadata) : JsonNode

/-- Content aggregation of `convert_node_to_json`: join the `text` entries
of the content blocks with single spaces and strip.  (Every content block
the parser attaches is a dict; the source's branch for plain-string blocks
is unreachable in the typed model.) -/
def contentTextOf (blocks : List Block) : String :=
  if blocks.isEmpty then ""
  else pyStrip (String.intercalate " " (blocks.filterMap (fun b => b.text)))

/-- The metadata dictionary assembly of `convert_node_to_json`: each key is
added conditionally, and the dictionary is attached only if non-empty. -/
def nodeMetadata (fch : Option FontChars) (ih : Option Rat)
    (blocks : List Block) : Option JsonMetadata :=
  let cbs : Option (List ContentBlockMeta) :=
    if blocks.isEmpty then none
    else some (blocks.map (fun b =>
      { page_number := b.page_number.getD 1, bbox := b.bbox.getD [0, 0, 0, 0],
        font_size := b.avg_font_size.getD 10, font_name := b.dominant_font_name.getD "",
        is_bold := b.is_bold.getD false, is_italic := b.is_italic.getD false }))
  if fch.isSome ∨ ih.isSome ∨ cbs.isSome then
    some { font_characteristics := fch, indentation := ih, content_blocks := cbs }
  else none

mutual

/-- `convert_node_to_json` (recursive, depth first). -/
def convert_node_to_json : HNodeTree → JsonNode
  | HNodeTree.mk id ty idt tit blocks ps pe children fch ih =>
    JsonNode.mk id ty idt tit (contentTextOf blocks) ps pe
      (convertChildren children) (nodeMetadata fch ih blocks)

/-- The `for child in node.children` loop of `convert_node_to_json`. -/
def convertChildren : List HNodeTree → List JsonNode
  | [] => []
  | c :: rest => convert_node_to_json c :: convertChildren rest

end

/-- The complete document JSON of `convert_hierarchy_to_document_json`. -/
structure DocumentJson where
  id : String
  title : String
  sections : List JsonNode
  document_metadata : Option PDict := none
  processing_info : Option PDict := none

/-- `convert_hierarchy_to_document_json` (`document_metadata` is attached
only when `original_metadata` is truthy, i.e. present and non-empty). -/
def convert_hierarchy_to_document_json (hierarchy_nodes : List HNodeTree)
    (document_id document_title : String) (original_metadata : Option PDict) :
    DocumentJson :=
  let sections := convertChildren hierarchy_nodes
  { id := document_id, title := document_title, sections := sections,
    document_metadata :=
      match original_metadata with
      | some m => if m.isEmpty then none else some m
      | none => none,
    processing_info := some
      [("parser_version", PVal.str "hierarchical_v1.0"),
       ("total_sections", PVal.nat sections.length),
       ("parsing_method", PVal.str "hierarchical_structure")] }

/-- `_map_hierarchical_type_to_section_type`. -/
def mapTypeToSectionType (t : String) : String :=
  if t = "section" then "heading"
  else if t = "loa" then "heading"
  else if t = "capital_letter_item" then "heading"
  else if t = "number_item" then "list"
  else if t = "lowercase_letter_item" then "list"
  else if t = "paragraph" then "paragraph"
  else "paragraph"

/-- Python string truthiness of an optional string field. -/
def pyTruthyS : Option String → Bool
  | some s => s != ""
  | none => false

/-- Python `a or b` on optional strings (empty string is falsy). -/
def pyOrS (a : Option String) (b : String) : String :=
  match a with
  | some s => if s = "" then b else s
  | none => b

/-- `_build_path`. -/
def build_path (parent_path : String) (identifier title : Option String) : String :=
  let current := pyOrS identifier (pyOrS title "unknown")
  if parent_path = "" then current else parent_path ++ " > " ++ current

/-- `_create_section_content`. -/
def createSectionContent (idt tit : Option String) (content_text : String) : String :=
  let parts1 : List String :=
    if pyTruthyS tit then
      if pyTruthyS idt then [idt.getD "" ++ ". " ++ tit.getD ""] else [tit.getD ""]
    else if pyTruthyS idt then [idt.getD ""] else []
  let parts := parts1 ++ (if content_text != "" then [content_text] else [])
  if parts.isEmpty then "" else String.intercalate "\n" parts

/-- Substring containment (Python `needle in haystack`). -/
def subListOf : List Char → List Char → Bool
  | needle, [] => needle.isEmpty
  | needle, h :: t => needle.isPrefixOf (h :: t) || subListOf needle t

def pyInStr (needle hay : String) : Bool := subListOf needle.data hay.data

/-- `_determine_category` (the node's `content_text` key is always present
in a converted node; a `None` `title_text` would raise in the source, which
cannot happen for parser-produced nodes, so it is read with default ""). -/
def determineCategory (content_text : String) (title_text : Option String) : String :=
  let content := (content_text ++ " " ++ title_text.getD "").toLower
  if ["schedule", "duty", "time", "hours", "shift"].any (fun t => pyInStr t content)
  then "scheduling"
  else if ["pay", "wage", "salary", "compensation"].any (fun t => pyInStr t content)
  then "pay"
  else if ["benefit", "insurance", "vacation", "sick"].any (fun t => pyInStr t content)
  then "benefits"
  else if ["rule", "procedure", "conduct", "discipline"].any (fun t => pyInStr t content)
  then "work_rules"
  else "general"

/-- `_determine_importance`. -/
def determineImportance (level : Nat) : String :=
  if level = 0 then "high" else if level = 1 then "medium" else "low"

/-- The section metadata built by `_create_section_metadata`. -/
structure SectionMeta where
  category : String
  importance : String
  glossaryTerms : List String
  affects : List String
  hierarchy_level : Nat
  hierarchy_type : String
  parent_path : String
deriving DecidableEq, Repr

/-- The `hierarchy` annotation of a flattened section. -/
structure HierInfo where
  level : Nat
  type : String
  identifier : Option String
  title : Option String
  parent_path : String
  page_range : Nat × Nat
  has_children : Bool
deriving DecidableEq, Repr

/-- One entry of the flattened section list. -/
structure FlatSection where
  id : String
  type : String
  content : String
  originalPage : Nat
  metadata : SectionMeta
  hierarchy : HierInfo
deriving DecidableEq, Repr

/-- The flattened document produced by `flatten_hierarchy_for_compatibility`. -/
structure FlatDocument where
  id : String
  title : String
  sections : List FlatSection
  document_metadata : Option PDict := none
  processing_info : Option PDict := none

mutual

/-- The inner `flatten_node` of `flatten_hierarchy_for_compatibility`
(pre-order: the section is emitted before its flattened children). -/
def flattenNode : JsonNode → Nat → String → List FlatSection
  | JsonNode.mk id ty idt tit ctext ps pe children _meta, level, parent_path =>
    let sec : FlatSection :=
      { id := id, type := mapTypeToSectionType ty,
        content := createSectionContent idt tit ctext,
        originalPage := ps,
        metadata := { category := determineCategory ctext tit,
                      importance := determineImportance level,
                      glossaryTerms := [], affects := ["all_flight_attendants"],
                      hierarchy_level := level, hierarchy_type := ty,
                      parent_path := parent_path },
        hierarchy := { level := level, type := ty, identifier := idt, title := tit,
                       parent_path := parent_path, page_range := (ps, pe),
                       has_children := !children.isEmpty } }
    sec :: flattenKids children (level + 1) (build_path parent_path idt tit)

/-- The child loops of `flatten_node` / the top-level section loop. -/
def flattenKids : List JsonNode → Nat → String → List FlatSection
  | [], _, _ => []
  | c :: rest, level, path => flattenNode c level path ++ flattenKids rest level path

end

/-- `flatten_hierarchy_for_compatibility`.  The source aliases the input's
`processing_info` dictionary into the output and then sets
`"flattened": True` on that shared object; the pure embedding returns the
pair (caller's document as mutated by the call, returned flat document),
whose `processing_info` components are the same updated dictionary. -/
def flatten_hierarchy_for_compatibility (document_json : DocumentJson) :
    DocumentJson × FlatDocument :=
  let flattened_sections := flattenKids document_json.sections 0 ""
  match document_json.processing_info with
  | some pinfo =>
    let pinfo2 := pyDictSet pinfo "flattened" (PVal.bool true)
    ({document_json with processing_info := some pinfo2},
     { id := document_json.id, title := document_json.title,
       sections := flattened_sections,
       document_metadata := document_json.document_metadata,
       processing_info := some pinfo2 })
  | none =>
    (document_json,
     { id := document_json.id, title := document_json.title,
       sections := flattened_sections,
       document_metadata := document_json.document_metadata,
       processing_info := none })

/-!  Concrete fragments used by the claim scenarios. -/

/-- A fully populated text block (all dictionary keys present). -/
def mkBlock (t : String) (page : Nat) (ind : Rat) (fs : Rat) (fname : String)
    (bold italic : Bool) : Block :=
  { text := some t, page_number := some page, indentation_level := some ind,
    avg_font_size := some fs, dominant_font_name := some fname,
    is_bold := some bold, is_italic := some italic, bbox := some [0, 0, 0, 0] }

def bSec1 : Block := mkBlock "SECTION 1: Pay" 1 72 14 "F" true false

def bCapA : Block := mkBlock "A. First" 1 90 10 "F" false false

def bNum1 : Block := mkBlock "1. Sub" 1 100 10 "F" false false

def bSec2 : Block := mkBlock "SECTION 2: Benefits" 1 72 14 "F" true false

/-- The P2 fragment sequence [Section 1, Capital A, Number 1, Section 2]. -/
def pagesC1 : List (List Block) := [[bSec1, bCapA, bNum1, bSec2]]

/-- A capital-letter item header on page 2 (child arriving on a later page). -/
def bCapA2 : Block := mkBlock "A. Foo" 2 90 10 "F" false false

def pagesC3 : List (List Block) := [[bSec1], [bCapA2]]

/-- A section header with indentation 0.0 (a falsy float). -/
def bSec0 : Block := mkBlock "SECTION 1: Zero" 1 0 14 "F" true false

/-- State with the indentation-0 section open. -/
def st0 : ParserState := (processTextBlock cfgDefault initState bSec0).1

/-- A section header at indentation 90, serving as the open parent. -/
def bSec90 : Block := mkBlock "SECTION 1: Title" 1 90 14 "F" true false

/-- State with the indentation-90 section open. -/
def st90 : ParserState := (processTextBlock cfgDefault initState bSec90).1

def b95 : Block := mkBlock "1. Overtime" 1 95 10 "F" false false

def b96 : Block := mkBlock "1. Overtime" 1 96 10 "F" false false

/-- Lowercase roman letter followed by a period: "i. overview". -/
def bLowerRoman : Block := mkBlock "i. overview" 1 72 10 "F" false false

/-- Lower-cased SECTION keyword. -/
def bCiKw : Block := mkBlock "section 1: Pay" 1 72 10 "F" false false

/-- Lower-cased LOA keyword. -/
def bCiLoa : Block := mkBlock "loa 2: Stuff" 1 72 12 "F" false false

/-- Orphan content preceding any header. -/
def bPre : Block := mkBlock "This is a preamble." 1 72 10 "F" false false

/-- Ordinary content following a header. -/
def bCont : Block := mkBlock "Some content here." 1 72 10 "F" false false

def pagesC7 : List (List Block) := [[bPre, bSec1, bCont]]

/-- The successful parse result (or the initial state on error; every use
is guarded by an `isOk` conjunct). -/
def parsedStateD (cfg : Config) (pages : List (List Block)) : ParserState :=
  match parse_document cfg pages with
  | Except.ok st => st
  | Except.error _ => initState

/-- Arena node `i` of the default-configuration parse of `pages`. -/
def nodeD (pages : List (List Block)) (i : Nat) : HierarchyNode :=
  (parsedStateD cfgDefault pages).nodes.getD i default

/-- A block dictionary containing every key the parser may read. -/
abbrev WellFormedBlock (b : Block) : Prop :=
  b.text.isSome = true ∧ b.page_number.isSome = true ∧
  b.indentation_level.isSome = true ∧ b.avg_font_size.isSome = true ∧
  b.dominant_font_name.isSome = true ∧ b.is_bold.isSome = true ∧
  b.is_italic.isSome = true

/-- Modelled from the spec's words for comparison in the parent-indentation
claim: "`parent_indentation` is the `header_indentation` of the current
innermost open node, or `base_left_margin` (default 72.0) if no node is
open" — no falsiness fallback on the value 0.0. -/
def parentIndentationSpecModel (cfg : Config) (st : ParserState) : Rat :=
  match st.stack with
  | i :: _ => ((st.nodes.getD i default).indentation_header).getD cfg.base_left_margin
  | [] => cfg.base_left_margin

/-- A small document JSON with a `processing_info` entry (witness input). -/
def docW : DocumentJson :=
  { id := "doc1", title := "Contract", sections := [],
    processing_info := some [("parser_version", PVal.str "hierarchical_v1.0")] }

/-- The open-ancestor-stack invariant: every stack entry points into the
arena, and levels strictly decrease from the head (the innermost open
node) down to the bottom — i.e. strictly increase from the bottom of the
stack to the top. -/
def StackInv (nodes : List HierarchyNode) (stack : List Nat) : Prop :=
  (∀ i ∈ stack, i < nodes.length) ∧
  stack.Pairwise (fun a b => levelAt nodes b < levelAt nodes a)

/-!  Helper lemmas about the arena and the closing rule. -/

theorem closeStack_eq_dropWhile (nodes : List HierarchyNode) (L : Nat) :
    ∀ s : List Nat,
      closeStack nodes L s = s.dropWhile (fun i => decide (L ≤ levelAt nodes i))
  | [] => rfl
  | i :: rest => by
    by_cases h : L ≤ levelAt nodes i
    · rw [List.dropWhile_cons, if_pos (by simpa using h)]
      simp only [closeStack]
      rw [if_pos h]
      exact closeStack_eq_dropWhile nodes L rest
    · rw [List.dropWhile_cons, if_neg (by simpa using h)]
      simp [closeStack, h]

theorem dropWhile_head_false {α : Type} (p : α → Bool) (l : List α) (a : α)
    (r : List α) (h : l.dropWhile p = a :: r) : p a = false := by
  induction l with
  | nil => simp [List.dropWhile] at h
  | cons x xs ih =>
    rw [List.dropWhile_cons] at h
    by_cases hp : p x
    · rw [if_pos hp] at h; exact ih h
    · rw [if_neg hp] at h
      cases h
      exact Bool.of_not_eq_true hp

theorem getD_append_left {α : Type} (l : List α) (x d : α) (j : Nat)
    (h : j < l.length) : (l ++ [x]).getD j d = l.getD j d := by
  simp [List.getD_eq_getElem?_getD, List.getElem?_append_left h]

theorem getD_append_len {α : Type} (l : List α) (x d : α) :
    (l ++ [x]).getD l.length d = x := by
  simp [List.getD_eq_getElem?_getD]

theorem getD_set_ne {α : Type} (l : List α) (i j : Nat) (a d : α) (h : i ≠ j) :
    (l.set i a).getD j d = l.getD j d := by
  simp [List.getD_eq_getElem?_getD, List.getElem?_set_ne h]

theorem getD_set_self {α : Type} (l : List α) (i : Nat) (a d : α)
    (h : i < l.length) : (l.set i a).getD i d = a := by
  simp [List.getD_eq_getElem?_getD, List.getElem?_set_self h]

theorem set_oob {α : Type} (l : List α) (i : Nat) (a : α)
    (h : l.length ≤ i) : l.set i a = l :=
  List.set_eq_of_length_le h

theorem getD_set_type_eq (nodes : List HierarchyNode) (p : Nat)
    (n' : HierarchyNode) (hty : n'.type = ((nodes.getD p default)).type) (j : Nat) :
    (((nodes.set p n').getD j default)).type = (((nodes.getD j default))).type := by
  by_cases hp : p < nodes.length
  · by_cases hij : p = j
    · subst hij
      rw [getD_set_self _ _ _ _ hp, hty]
    · rw [getD_set_ne _ _ _ _ _ hij]
  · rw [set_oob _ _ _ (Nat.le_of_not_lt hp)]

theorem levelAt_set_type_eq (nodes : List HierarchyNode) (p : Nat)
    (n' : HierarchyNode) (hty : n'.type = ((nodes.getD p default)).type) (j : Nat) :
    levelAt (nodes.set p n') j = levelAt nodes j := by
  unfold levelAt
  rw [getD_set_type_eq nodes p n' hty j]

theorem levelAt_append_lt (nodes : List HierarchyNode) (x : HierarchyNode)
    (j : Nat) (h : j < nodes.length) : levelAt (nodes ++ [x]) j = levelAt nodes j := by
  unfold levelAt
  rw [getD_append_left _ _ _ _ h]

theorem levelAt_append_len (nodes : List HierarchyNode) (x : HierarchyNode) :
    levelAt (nodes ++ [x]) nodes.length = hierarchyLevel x.type := by
  unfold levelAt
  rw [getD_append_len]

theorem stackInv_closeStack (nodes : List HierarchyNode) (L : Nat)
    (stack : List Nat) (h : StackInv nodes stack) :
    StackInv nodes (closeStack nodes L stack) := by
  obtain ⟨hb, hp⟩ := h
  rw [closeStack_eq_dropWhile]
  exact ⟨fun i hi => hb i (List.dropWhile_subset _ hi),
         hp.sublist (List.dropWhile_sublist _)⟩

theorem closeStack_levels_lt (nodes : List HierarchyNode) (L : Nat)
    (stack : List Nat) (h : StackInv nodes stack) :
    ∀ j ∈ closeStack nodes L stack, levelAt nodes j < L := by
  obtain ⟨hb, hp⟩ := h
  rw [closeStack_eq_dropWhile]
  cases hcs : stack.dropWhile (fun i => decide (L ≤ levelAt nodes i)) with
  | nil => simp
  | cons a r =>
    have ha : levelAt nodes a < L := by
      have := dropWhile_head_false _ _ _ _ hcs
      simpa using this
    have hsub : (a :: r).Pairwise (fun a b => levelAt nodes b < levelAt nodes a) := by
      rw [← hcs]
      exact hp.sublist (List.dropWhile_sublist _)
    intro j hj
    rcases List.mem_cons.mp hj with rfl | hj2
    · exact ha
    · exact lt_trans ((List.pairwise_cons.mp hsub).1 j hj2) ha

theorem stackInv_updateNode (st : ParserState) (p : Nat)
    (f : HierarchyNode → HierarchyNode) (hty : ∀ n, (f n).type = n.type)
    (h : StackInv st.nodes st.stack) :
    StackInv (updateNode st p f).nodes (updateNode st p f).stack := by
  obtain ⟨hb, hp⟩ := h
  have heq : ∀ j, levelAt (st.nodes.set p (f (st.nodes.getD p default))) j
      = levelAt st.nodes j :=
    fun j => levelAt_set_type_eq _ _ _ (hty _) j
  refine ⟨fun i hi => ?_, ?_⟩
  · simpa [updateNode, List.length_set] using hb i hi
  · exact hp.imp (fun {a b} hab => by
      show levelAt _ b < levelAt _ a
      rw [show (updateNode st p f).nodes = st.nodes.set p (f (st.nodes.getD p default)) from rfl,
          heq, heq]
      exact hab)

theorem handleContent_stackInv (st : ParserState) (b : Block)
    (h : StackInv st.nodes st.stack) :
    StackInv (handleContent st b).1.nodes (handleContent st b).1.stack := by
  unfold handleContent
  cases hst : st.stack with
  | nil =>
    dsimp only
    cases b.page_number <;> exact h
  | cons top rest =>
    dsimp only
    have h1 := stackInv_updateNode st top
      (fun n => {n with content_text_blocks := n.content_text_blocks ++ [b]})
      (fun _ => rfl) h
    cases b.page_number with
    | some p =>
      exact stackInv_updateNode _ top (fun n => {n with page_number_end := p})
        (fun _ => rfl) h1
    | none => exact h1

theorem handleHeader_stackInv (st : ParserState) (b : Block)
    (ht idf tit : String) (h : StackInv st.nodes st.stack) :
    StackInv (handleHeader st b ht idf tit).1.nodes
      (handleHeader st b ht idf tit).1.stack := by
  have hclose : StackInv st.nodes (closeStack st.nodes (hierarchyLevel ht) st.stack) :=
    stackInv_closeStack _ _ _ h
  have hlt : ∀ j ∈ closeStack st.nodes (hierarchyLevel ht) st.stack,
      levelAt st.nodes j < hierarchyLevel ht :=
    closeStack_levels_lt _ _ _ h
  unfold handleHeader closeNodesForLevel generateNodeId updateNode
  cases b.page_number with
  | none => exact hclose
  | some page =>
  cases b.avg_font_size with
  | none => exact hclose
  | some fs =>
  cases b.dominant_font_name with
  | none => exact hclose
  | some fname =>
  cases b.is_bold with
  | none => exact hclose
  | some fbold =>
  cases b.is_italic with
  | none => exact hclose
  | some fitalic =>
  cases b.indentation_level with
  | none => exact hclose
  | some ind =>
  dsimp only
  cases hcs : closeStack st.nodes (hierarchyLevel ht) st.stack with
  | nil =>
    refine ⟨?_, ?_⟩
    · intro i hi
      rcases List.mem_cons.mp hi with rfl | hi2
      · simp
      · simp at hi2
    · simp
  | cons parent crest =>
    have hparmem : parent ∈ closeStack st.nodes (hierarchyLevel ht) st.stack := by
      rw [hcs]; exact List.mem_cons_self _ _
    have hLset : ∀ (nd : HierarchyNode) (j : Nat),
        levelAt ((st.nodes ++ [nd]).set parent
          { (st.nodes ++ [nd]).getD parent default with
            children := ((st.nodes ++ [nd]).getD parent default).children
              ++ [st.nodes.length] }) j
        = levelAt (st.nodes ++ [nd]) j :=
      fun nd j => levelAt_set_type_eq (st.nodes ++ [nd]) parent
        { (st.nodes ++ [nd]).getD parent default with
          children := ((st.nodes ++ [nd]).getD parent default).children
            ++ [st.nodes.length] } rfl j
    refine ⟨?_, ?_⟩
    · intro i hi
      rcases List.mem_cons.mp hi with rfl | hi2
      · simp [List.length_set, List.length_append]
      · have : i ∈ closeStack st.nodes (hierarchyLevel ht) st.stack := by
          rw [hcs]; exact hi2
        have := hclose.1 i this
        simp only [List.length_set, List.length_append, List.length_cons,
          List.length_nil]
        omega
    · rw [List.pairwise_cons]
      have hmemlvl : ∀ (nd : HierarchyNode), ∀ j ∈ parent :: crest,
          levelAt ((st.nodes ++ [nd]).set parent
            { (st.nodes ++ [nd]).getD parent default with
              children := ((st.nodes ++ [nd]).getD parent default).children
                ++ [st.nodes.length] }) j = levelAt st.nodes j := by
        intro nd j hj
        have hjlen : j < st.nodes.length := hclose.1 j (by rw [hcs]; exact hj)
        rw [hLset, levelAt_append_lt _ _ _ hjlen]
      constructor
      · intro j hj
        rw [hmemlvl _ j hj, hLset, levelAt_append_len]
        exact hlt j (by rw [hcs]; exact hj)
      · have hP : (parent :: crest).Pairwise
            (fun a b => levelAt st.nodes b < levelAt st.nodes a) := by
          rw [← hcs]; exact hclose.2
        exact hP.imp_of_mem (fun {a b} ha hb hab => by
          rw [hmemlvl _ b hb, hmemlvl _ a ha]; exact hab)

theorem processTextBlock_stackInv (cfg : Config) (st : ParserState) (b : Block)
    (h : StackInv st.nodes st.stack) :
    StackInv (processTextBlock cfg st b).1.nodes (processTextBlock cfg st b).1.stack := by
  unfold processTextBlock
  cases identifyHeader cfg st b with
  | error e => exact handleContent_stackInv st b h
  | ok r =>
    cases r with
    | none =>
      dsimp only
      cases hhc : handleContent st b with
      | mk st1 err =>
        have h1 : StackInv st1.nodes st1.stack := by
          have := handleContent_stackInv st b h
          rw [hhc] at this
          exact this
        cases err with
        | none => exact h1
        | some e => exact handleContent_stackInv st1 b h1
    | some trip =>
      obtain ⟨ht, idf, tit⟩ := trip
      dsimp only
      cases hhh : handleHeader st b ht idf tit with
      | mk st1 err =>
        have h1 : StackInv st1.nodes st1.stack := by
          have := handleHeader_stackInv st b ht idf tit h
          rw [hhh] at this
          exact this
        cases err with
        | none => exact h1
        | some e => exact handleContent_stackInv st1 b h1

theorem processBlocks_stackInv (cfg : Config) :
    ∀ (bs : List Block) (st : ParserState), StackInv st.nodes st.stack →
      StackInv (processBlocks cfg st bs).1.nodes (processBlocks cfg st bs).1.stack
  | [], st, h => h
  | b :: rest, st, h => by
    unfold processBlocks
    cases hstep : processTextBlock cfg st b with
    | mk st1 err =>
      have h1 : StackInv st1.nodes st1.stack := by
        have := processTextBlock_stackInv cfg st b h
        rw [hstep] at this
        exact this
      cases err with
      | none => exact processBlocks_stackInv cfg rest st1 h1
      | some e => exact h1

theorem handleHeader_success_stack (st : ParserState) (b : Block)
    (ht idf tit : String) (hsucc : (handleHeader st b ht idf tit).2 = none) :
    (handleHeader st b ht idf tit).1.stack
      = st.nodes.length :: closeStack st.nodes (hierarchyLevel ht) st.stack := by
  unfold handleHeader closeNodesForLevel generateNodeId updateNode at *
  revert hsucc
  cases b.page_number with
  | none => intro hsucc; simp at hsucc
  | some page =>
  cases b.avg_font_size with
  | none => intro hsucc; simp at hsucc
  | some fs =>
  cases b.dominant_font_name with
  | none => intro hsucc; simp at hsucc
  | some fname =>
  cases b.is_bold with
  | none => intro hsucc; simp at hsucc
  | some fbold =>
  cases b.is_italic with
  | none => intro hsucc; simp at hsucc
  | some fitalic =>
  cases b.indentation_level with
  | none => intro hsucc; simp at hsucc
  | some ind =>
  intro _
  dsimp only
  cases hcs : closeStack st.nodes (hierarchyLevel ht) st.stack <;> rfl

set_option maxRecDepth 10000

/-- C1: when the builder handles a header of structural level L, it pops
the open stack while the top's level is ≥ L (the pop loop is exactly a
`dropWhile`, and a successful `_handle_header` pushes the new node onto
the popped stack); consequently parsing
[SECTION 1, A., 1., SECTION 2] yields two root section nodes with "A"
a child of Section 1, the number item a child of "A", and Section 2
childless. -/
theorem claim_C1_closing_rule_and_scenario :
    (∀ (nodes : List HierarchyNode) (L : Nat) (s : List Nat),
      closeStack nodes L s = s.dropWhile (fun i => decide (L ≤ levelAt nodes i)))
    ∧ (∀ (st : ParserState) (b : Block) (ht idf tit : String),
        (handleHeader st b ht idf tit).2 = none →
        (handleHeader st b ht idf tit).1.stack
          = st.nodes.length :: closeStack st.nodes (hierarchyLevel ht) st.stack)
    ∧ ((parse_document cfgDefault pagesC1).isOk = true
      ∧ (parsedStateD cfgDefault pagesC1).nodes.length = 4
      ∧ (parsedStateD cfgDefault pagesC1).roots = [0, 3]
      ∧ (nodeD pagesC1 0).type = "section"
      ∧ (nodeD pagesC1 0).identifier_text = some "1"
      ∧ (nodeD pagesC1 0).children = [1]
      ∧ (nodeD pagesC1 1).type = "capital_letter_item"
      ∧ (nodeD pagesC1 1).identifier_text = some "A"
      ∧ (nodeD pagesC1 1).children = [2]
      ∧ (nodeD pagesC1 2).type = "number_item"
      ∧ (nodeD pagesC1 2).children = []
      ∧ (nodeD pagesC1 3).type = "section"
      ∧ (nodeD pagesC1 3).identifier_text = some "2"
      ∧ (nodeD pagesC1 3).children = []) :=
  ⟨closeStack_eq_dropWhile, handleHeader_success_stack, by decide⟩

/-- Witness for C1: the Section 1 header handled from the empty initial
state succeeds, and its resulting stack is the new index pushed onto the
popped (here empty) stack. -/
theorem claim_C1_witness :
    (handleHeader initState bSec1 "section" "1" "Pay").2 = none
    ∧ (handleHeader initState bSec1 "section" "1" "Pay").1.stack
      = initState.nodes.length
        :: closeStack initState.nodes (hierarchyLevel "section") initState.stack :=
  ⟨by decide,
   claim_C1_closing_rule_and_scenario.2.1 initState bSec1 "section" "1" "Pay" (by decide)⟩

/-- C8: after processing any prefix of the fragment stream (any block list
processed from the initial state; the fold also stops early at an uncaught
exception, covering every intermediate point), the open stack — whose head
is the innermost open node — is strictly decreasing in structural level
from its head, i.e. strictly increasing from the bottom (a root) to the
top; both orientations are stated. -/
theorem claim_C8_open_stack_strict_chain (cfg : Config) (blocks : List Block) :
    ((processBlocks cfg initState blocks).1.stack).Pairwise
      (fun a b => levelAt (processBlocks cfg initState blocks).1.nodes b
        < levelAt (processBlocks cfg initState blocks).1.nodes a)
    ∧ ((processBlocks cfg initState blocks).1.stack.reverse).Pairwise
      (fun a b => levelAt (processBlocks cfg initState blocks).1.nodes a
        < levelAt (processBlocks cfg initState blocks).1.nodes b) := by
  have h := (processBlocks_stackInv cfg blocks initState
    ⟨fun i hi => absurd hi (List.not_mem_nil i), List.Pairwise.nil⟩).2
  exact ⟨h, List.pairwise_reverse.mpr h⟩

theorem identifyHeader_isOk_of_wf (cfg : Config) (st : ParserState) (b : Block)
    (wf : WellFormedBlock b) : (identifyHeader cfg st b).isOk = true := by
  obtain ⟨h1, h2, h3, h4, h5, h6, h7⟩ := wf
  obtain ⟨t, ht⟩ := Option.isSome_iff_exists.mp h1
  obtain ⟨fs, hfs⟩ := Option.isSome_iff_exists.mp h4
  obtain ⟨bo, hbo⟩ := Option.isSome_iff_exists.mp h6
  obtain ⟨ind, hind⟩ := Option.isSome_iff_exists.mp h3
  unfold identifyHeader
  rw [ht, hfs, hbo, hind]
  dsimp only [fieldOr, bind, Except.bind]
  repeat (first | rfl | split)

theorem handleContent_err_none_of_page (st : ParserState) (b : Block)
    (h : b.page_number.isSome = true) : (handleContent st b).2 = none := by
  obtain ⟨p, hp⟩ := Option.isSome_iff_exists.mp h
  unfold handleContent
  cases st.stack <;> simp [hp]

theorem handleHeader_err_none_of_wf (st : ParserState) (b : Block)
    (ht idf tit : String) (wf : WellFormedBlock b) :
    (handleHeader st b ht idf tit).2 = none := by
  obtain ⟨h1, h2, h3, h4, h5, h6, h7⟩ := wf
  obtain ⟨page, hpn⟩ := Option.isSome_iff_exists.mp h2
  obtain ⟨fs, hfs⟩ := Option.isSome_iff_exists.mp h4
  obtain ⟨fname, hfn⟩ := Option.isSome_iff_exists.mp h5
  obtain ⟨fbold, hbo⟩ := Option.isSome_iff_exists.mp h6
  obtain ⟨fitalic, hit⟩ := Option.isSome_iff_exists.mp h7
  obtain ⟨ind, hind⟩ := Option.isSome_iff_exists.mp h3
  unfold handleHeader
  rw [hpn, hfs, hfn, hbo, hit, hind]

theorem processTextBlock_err_none_of_wf (cfg : Config) (st : ParserState)
    (b : Block) (wf : WellFormedBlock b) : (processTextBlock cfg st b).2 = none := by
  unfold processTextBlock
  cases hid : identifyHeader cfg st b with
  | error e =>
    have := identifyHeader_isOk_of_wf cfg st b wf
    rw [hid] at this
    simp [Except.isOk, Except.toBool] at this
  | ok r =>
    cases r with
    | none =>
      dsimp only
      cases hhc : handleContent st b with
      | mk st1 err =>
        have herr : err = none := by
          have := handleContent_err_none_of_page st b wf.2.1
          rw [hhc] at this
          exact this
        subst herr
        rfl
    | some trip =>
      obtain ⟨ht, idf, tit⟩ := trip
      dsimp only
      cases hhh : handleHeader st b ht idf tit with
      | mk st1 err =>
        have herr : err = none := by
          have := handleHeader_err_none_of_wf st b ht idf tit wf
          rw [hhh] at this
          exact this
        subst herr
        rfl

theorem processBlocks_err_none_of_wf (cfg : Config) :
    ∀ (bs : List Block) (st : ParserState), (∀ b ∈ bs, WellFormedBlock b) →
      (processBlocks cfg st bs).2 = none
  | [], _, _ => rfl
  | b :: rest, st, h => by
    unfold processBlocks
    cases hstep : processTextBlock cfg st b with
    | mk st1 err =>
      have herr : err = none := by
        have := processTextBlock_err_none_of_wf cfg st b (h b (List.mem_cons_self _ _))
        rw [hstep] at this
        exact this
      subst herr
      exact processBlocks_err_none_of_wf cfg rest st1
        (fun b2 hb2 => h b2 (List.mem_cons_of_mem _ hb2))

/-- C2: the never-raises contract of `parse_document`.  The spec's claim is
right about the intent but the code violates it: a block dictionary missing
`page_number` (e.g. the empty dict) makes the content-handling fallback of
the `except` path itself raise `KeyError('page_number')`, which escapes
`parse_document`.  For streams of well-formed fragments (all keys present)
the parse indeed always returns a forest. -/
theorem claim_C2_never_raises_violated :
    parse_document cfgDefault [[({} : Block)]]
      = Except.error (PyErr.keyError "page_number")
    ∧ ∀ (cfg : Config) (pages : List (List Block)),
        (∀ b ∈ pages.flatten, WellFormedBlock b) →
        ∃ st, parse_document cfg pages = Except.ok st := by
  refine ⟨by decide, ?_⟩
  intro cfg pages h
  unfold parse_document
  cases hpb : processBlocks cfg initState pages.flatten with
  | mk st err =>
    have herr : err = none := by
      have := processBlocks_err_none_of_wf cfg pages.flatten initState h
      rw [hpb] at this
      exact this
    subst herr
    exact ⟨_, rfl⟩

/-- Witness for C2: the P2 scenario stream is well-formed and parses
without an exception. -/
theorem claim_C2_witness :
    ∃ st, parse_document cfgDefault pagesC1 = Except.ok st :=
  claim_C2_never_raises_violated.2 cfgDefault pagesC1 (by decide)

/-- C7: a content fragment arriving while no node is open is dropped: the
state is unchanged (no node created, nothing attached) and no exception is
raised (given the fragment has its page number, which the warning message
reads); concretely, the preamble fragment of `pagesC7` appears nowhere in
the output forest while the later content fragment is attached. -/
theorem claim_C7_orphan_content_dropped :
    (∀ (cfg : Config) (st : ParserState) (b : Block), st.stack = [] →
      identifyHeader cfg st b = Except.ok none → b.page_number.isSome = true →
      processTextBlock cfg st b = (st, none))
    ∧ ((parse_document cfgDefault pagesC7).isOk = true
      ∧ (parsedStateD cfgDefault pagesC7).roots = [0]
      ∧ (parsedStateD cfgDefault pagesC7).nodes.length = 1
      ∧ (nodeD pagesC7 0).content_text_blocks = [bCont]) := by
  refine ⟨?_, by decide⟩
  intro cfg st b hst hid hpn
  unfold processTextBlock
  rw [hid]
  dsimp only
  have hc : handleContent st b = (st, none) := by
    unfold handleContent
    rw [hst]
    obtain ⟨p, hp⟩ := Option.isSome_iff_exists.mp hpn
    rw [hp]
  rw [hc]

/-- Witness for C7: the concrete preamble fragment is dropped from the
empty initial state. -/
theorem claim_C7_witness :
    processTextBlock cfgDefault initState bPre = (initState, none) :=
  claim_C7_orphan_content_dropped.1 cfgDefault initState bPre rfl (by decide) (by decide)

/-- C5: the letter/number item classifiers accept a pattern-matching
fragment only under the strict indentation gate
`indentation > parent_indentation + indentation_tolerance`; with a parent
at indentation 90 and the default tolerance 5, a number-item fragment at
indentation exactly 95 is routed to content (it attaches to the open
section node) while the same fragment at 96 is accepted. -/
theorem claim_C5_indentation_gate :
    (∀ (cfg : Config) (text : String) (ind pin : Rat) (g : String × String),
      isCapitalLetterHeader cfg text ind pin = some g →
      pin + cfg.indentation_tolerance < ind)
    ∧ (∀ (cfg : Config) (text : String) (ind pin : Rat) (g : String × String),
      isNumberHeader cfg text ind pin = some g →
      pin + cfg.indentation_tolerance < ind)
    ∧ (∀ (cfg : Config) (text : String) (ind pin : Rat) (g : String × String),
      isLowercaseLetterHeader cfg text ind pin = some g →
      pin + cfg.indentation_tolerance < ind)
    ∧ identifyHeader cfgDefault st90 b95 = Except.ok none
    ∧ identifyHeader cfgDefault st90 b96
        = Except.ok (some ("number_item", "1", "Overtime"))
    ∧ ((processTextBlock cfgDefault st90 b95).1.nodes.getD 0
        default).content_text_blocks = [b95] := by
  refine ⟨?_, ?_, ?_, by decide, by decide, by decide⟩
  · intro cfg text ind pin g h
    by_cases hg : pin + cfg.indentation_tolerance < ind
    · exact hg
    · unfold isCapitalLetterHeader at h
      split at h
      · rw [if_neg hg] at h; cases h
      · cases h
  · intro cfg text ind pin g h
    by_cases hg : pin + cfg.indentation_tolerance < ind
    · exact hg
    · unfold isNumberHeader at h
      split at h
      · rw [if_neg hg] at h; cases h
      · cases h
  · intro cfg text ind pin g h
    by_cases hg : pin + cfg.indentation_tolerance < ind
    · exact hg
    · unfold isLowercaseLetterHeader at h
      split at h
      · rw [if_neg hg] at h; cases h
      · cases h

/-- Witness for C5: the accepted boundary fragment at indentation 96
discharges the gate implication at a concrete input. -/
theorem claim_C5_witness :
    (90 : Rat) + cfgDefault.indentation_tolerance < 96 :=
  claim_C5_indentation_gate.2.1 cfgDefault "1. Overtime" 96 90
    ("1", "Overtime") (by decide)

/-- Counterexample to C4: after opening a section whose header fragment has
indentation 0.0, a node is open with `header_indentation = 0.0`, yet
`_get_current_parent_indentation` returns `base_left_margin` (72), not the
open node's 0.0 — because Python's `or` treats the float `0.0` as falsy.
So the supplied parent indentation differs from the spec-modelled value. -/
theorem claim_C4_counterexample :
    st0.stack = [0]
    ∧ (st0.nodes.getD 0 default).indentation_header = some 0
    ∧ getCurrentParentIndentation cfgDefault st0 = cfgDefault.base_left_margin
    ∧ parentIndentationSpecModel cfgDefault st0 = 0
    ∧ getCurrentParentIndentation cfgDefault st0
        ≠ parentIndentationSpecModel cfgDefault st0 := by
  decide

/-- C4 (amended): `parent_indentation` equals the innermost open node's
`header_indentation` whenever that value is set and non-zero (agreeing
with the spec's model there), and equals `base_left_margin` when no node
is open, or when the top node's `header_indentation` is `0.0` or unset. -/
theorem claim_C4_parent_indentation_amended :
    (∀ (cfg : Config) (st : ParserState), st.stack = [] →
      getCurrentParentIndentation cfg st = cfg.base_left_margin)
    ∧ (∀ (cfg : Config) (st : ParserState) (i : Nat) (rest : List Nat) (x : Rat),
        st.stack = i :: rest →
        (st.nodes.getD i default).indentation_header = some x → x ≠ 0 →
        getCurrentParentIndentation cfg st = x
        ∧ getCurrentParentIndentation cfg st = parentIndentationSpecModel cfg st)
    ∧ (∀ (cfg : Config) (st : ParserState) (i : Nat) (rest : List Nat),
        st.stack = i :: rest →
        ((st.nodes.getD i default).indentation_header = some 0
          ∨ (st.nodes.getD i default).indentation_header = none) →
        getCurrentParentIndentation cfg st = cfg.base_left_margin) := by
  refine ⟨?_, ?_, ?_⟩
  · intro cfg st h
    unfold getCurrentParentIndentation
    rw [h]
  · intro cfg st i rest x hst hih hx
    unfold getCurrentParentIndentation parentIndentationSpecModel
    rw [hst]
    dsimp only
    rw [hih]
    dsimp only
    rw [if_neg hx]
    exact ⟨rfl, rfl⟩
  · intro cfg st i rest hst hih
    unfold getCurrentParentIndentation
    rw [hst]
    dsimp only
    rcases hih with h | h
    · rw [h]
      dsimp only
      rw [if_pos rfl]
    · rw [h]

/-- Witness for C4 (amended): with the indentation-90 section open, the
supplied parent indentation is the open node's 90, agreeing with the
spec-modelled value. -/
theorem claim_C4_witness :
    getCurrentParentIndentation cfgDefault st90 = 90
    ∧ getCurrentParentIndentation cfgDefault st90
      = parentIndentationSpecModel cfgDefault st90 :=
  claim_C4_parent_indentation_amended.2.1 cfgDefault st90 0 [] 90
    (by decide) (by decide) (by decide)

theorem handleHeader_new_node_pages (st : ParserState) (b : Block)
    (ht idf tit : String) (p : Nat) (hp : b.page_number = some p)
    (hsucc : (handleHeader st b ht idf tit).2 = none) :
    ((handleHeader st b ht idf tit).1.nodes.getD st.nodes.length
      default).page_number_start = p
    ∧ ((handleHeader st b ht idf tit).1.nodes.getD st.nodes.length
      default).page_number_end = p := by
  unfold handleHeader closeNodesForLevel generateNodeId updateNode at hsucc ⊢
  rw [hp] at hsucc ⊢
  revert hsucc
  cases b.avg_font_size with
  | none => intro hsucc; simp at hsucc
  | some fs =>
  cases b.dominant_font_name with
  | none => intro hsucc; simp at hsucc
  | some fname =>
  cases b.is_bold with
  | none => intro hsucc; simp at hsucc
  | some fbold =>
  cases b.is_italic with
  | none => intro hsucc; simp at hsucc
  | some fitalic =>
  cases b.indentation_level with
  | none => intro hsucc; simp at hsucc
  | some ind =>
  intro _
  dsimp only
  cases hcs : closeStack st.nodes (hierarchyLevel ht) st.stack with
  | nil =>
    rw [getD_append_len]
    exact ⟨rfl, rfl⟩
  | cons parent crest =>
    by_cases hpar : parent = st.nodes.length
    · subst hpar
      rw [getD_set_self _ _ _ _ (by simp)]
      dsimp only
      rw [getD_append_len]
      exact ⟨rfl, rfl⟩
    · rw [getD_set_ne _ _ _ _ _ hpar, getD_append_len]
      exact ⟨rfl, rfl⟩

theorem handleHeader_preserves_pages (st : ParserState) (b : Block)
    (ht idf tit : String) (j : Nat) (hj : j < st.nodes.length) :
    ((handleHeader st b ht idf tit).1.nodes.getD j default).page_number_start
      = (st.nodes.getD j default).page_number_start
    ∧ ((handleHeader st b ht idf tit).1.nodes.getD j default).page_number_end
      = (st.nodes.getD j default).page_number_end := by
  unfold handleHeader closeNodesForLevel generateNodeId updateNode
  cases b.page_number with
  | none => exact ⟨rfl, rfl⟩
  | some page =>
  cases b.avg_font_size with
  | none => exact ⟨rfl, rfl⟩
  | some fs =>
  cases b.dominant_font_name with
  | none => exact ⟨rfl, rfl⟩
  | some fname =>
  cases b.is_bold with
  | none => exact ⟨rfl, rfl⟩
  | some fbold =>
  cases b.is_italic with
  | none => exact ⟨rfl, rfl⟩
  | some fitalic =>
  cases b.indentation_level with
  | none => exact ⟨rfl, rfl⟩
  | some ind =>
  dsimp only
  cases hcs : closeStack st.nodes (hierarchyLevel ht) st.stack with
  | nil =>
    rw [getD_append_left _ _ _ _ hj]
    exact ⟨rfl, rfl⟩
  | cons parent crest =>
    by_cases hpar : parent = j
    · subst hpar
      rw [getD_set_self _ _ _ _ (by simp [List.length_append]; omega)]
      dsimp only
      rw [getD_append_left _ _ _ _ hj]
      exact ⟨rfl, rfl⟩
    · rw [getD_set_ne _ _ _ _ _ hpar, getD_append_left _ _ _ _ hj]
      exact ⟨rfl, rfl⟩

theorem handleContent_pages (st : ParserState) (b : Block) (top : Nat)
    (rest : List Nat) (p : Nat) (hst : st.stack = top :: rest)
    (htop : top < st.nodes.length) (hp : b.page_number = some p) :
    ((handleContent st b).1.nodes.getD top default).page_number_end = p
    ∧ ((handleContent st b).1.nodes.getD top default).page_number_start
      = (st.nodes.getD top default).page_number_start
    ∧ ∀ j, j ≠ top → (handleContent st b).1.nodes.getD j default
      = st.nodes.getD j default := by
  unfold handleContent updateNode
  rw [hst]
  dsimp only
  rw [hp]
  dsimp only
  have hlen1 : top < (st.nodes.set top
      { st.nodes.getD top default with
        content_text_blocks
          := (st.nodes.getD top default).content_text_blocks ++ [b] }).length := by
    simpa using htop
  refine ⟨?_, ?_, ?_⟩
  · rw [getD_set_self _ _ _ _ hlen1]
  · rw [getD_set_self _ _ _ _ hlen1]
    dsimp only
    rw [getD_set_self _ _ _ _ htop]
  · intro j hj
    rw [getD_set_ne _ _ _ _ _ (Ne.symm hj), getD_set_ne _ _ _ _ _ (Ne.symm hj)]

/-- Counterexample to C3: parsing a Section header on page 1 followed by a
capital-letter child header on page 2 leaves the parent's
`page_number_end` at 1, even though the most recently attached fragment
(the child's opening header) is on page 2; the claim would require the
parent's `page_end` to become 2. -/
theorem claim_C3_counterexample :
    (parse_document cfgDefault pagesC3).isOk = true
    ∧ (parsedStateD cfgDefault pagesC3).nodes.length = 2
    ∧ (nodeD pagesC3 0).children = [1]
    ∧ (nodeD pagesC3 1).page_number_start = 2
    ∧ (nodeD pagesC3 0).page_number_end = 1
    ∧ (nodeD pagesC3 0).page_number_end ≠ (nodeD pagesC3 1).page_number_start := by
  decide

/-- C3 (amended): a node's `page_number_start` and `page_number_end` are
both set to the opening header fragment's page at creation; attaching a
content fragment updates (only) the innermost open node's
`page_number_end` to that fragment's page; attaching a child header leaves
every pre-existing node's page fields unchanged — so `page_end` is the page
of the last directly attached content fragment, or the header's page when
no content was attached. -/
theorem claim_C3_page_tracking_amended :
    (∀ (st : ParserState) (b : Block) (ht idf tit : String) (p : Nat),
      b.page_number = some p → (handleHeader st b ht idf tit).2 = none →
      ((handleHeader st b ht idf tit).1.nodes.getD st.nodes.length
        default).page_number_start = p
      ∧ ((handleHeader st b ht idf tit).1.nodes.getD st.nodes.length
        default).page_number_end = p)
    ∧ (∀ (st : ParserState) (b : Block) (ht idf tit : String) (j : Nat),
      j < st.nodes.length →
      ((handleHeader st b ht idf tit).1.nodes.getD j default).page_number_start
        = (st.nodes.getD j default).page_number_start
      ∧ ((handleHeader st b ht idf tit).1.nodes.getD j default).page_number_end
        = (st.nodes.getD j default).page_number_end)
    ∧ (∀ (st : ParserState) (b : Block) (top : Nat) (rest : List Nat) (p : Nat),
      st.stack = top :: rest → top < st.nodes.length → b.page_number = some p →
      ((handleContent st b).1.nodes.getD top default).page_number_end = p
      ∧ ((handleContent st b).1.nodes.getD top default).page_number_start
        = (st.nodes.getD top default).page_number_start
      ∧ ∀ j, j ≠ top → (handleContent st b).1.nodes.getD j default
        = st.nodes.getD j default) :=
  ⟨fun st b ht idf tit p hp hsucc => handleHeader_new_node_pages st b ht idf tit p hp hsucc,
   fun st b ht idf tit j hj => handleHeader_preserves_pages st b ht idf tit j hj,
   fun st b top rest p hst htop hp => handleContent_pages st b top rest p hst htop hp⟩

/-- Witness for C3 (amended): attaching the page-2 content fragment
`bCapA2` (treated as content here) to the open section of `st90` updates
that node's `page_number_end` to 2 and keeps its `page_number_start`. -/
theorem claim_C3_witness :
    ((handleContent st90 bCapA2).1.nodes.getD 0 default).page_number_end = 2
    ∧ ((handleContent st90 bCapA2).1.nodes.getD 0 default).page_number_start
      = (st90.nodes.getD 0 default).page_number_start
    ∧ ∀ j, j ≠ 0 → (handleContent st90 bCapA2).1.nodes.getD j default
      = st90.nodes.getD j default :=
  claim_C3_page_tracking_amended.2.2 st90 bCapA2 0 [] 2
    (by decide) (by decide) (by decide)

theorem lower_not_space (c : Char) (h : isLowerAZ c = true) : isPySpace c = false := by
  simp [isLowerAZ] at h
  simp [isPySpace]
  omega

theorem upper_not_space (c : Char) (h : isUpperAZ c = true) : isPySpace c = false := by
  simp [isUpperAZ] at h
  simp [isPySpace]
  omega

theorem lower_not_upper (c : Char) (h : isLowerAZ c = true) : isUpperAZ c = false := by
  simp [isLowerAZ] at h
  simp [isUpperAZ]
  omega

theorem upper_not_lower (c : Char) (h : isUpperAZ c = true) : isLowerAZ c = false := by
  simp [isUpperAZ] at h
  simp [isLowerAZ]
  omega

theorem lower_ne_paren (c : Char) (h : isLowerAZ c = true) : c ≠ '(' := by
  intro heq
  rw [heq] at h
  exact absurd h (by decide)

theorem upper_ne_paren (c : Char) (h : isUpperAZ c = true) : c ≠ '(' := by
  intro heq
  rw [heq] at h
  exact absurd h (by decide)

theorem matchItemDotPat_none (cls : Char → Bool) (cs : List Char) (c : Char)
    (rest : List Char) (hdrop : cs.dropWhile isPySpace = c :: rest)
    (hcls : cls c = false) : matchItemDotPat cls cs = none := by
  unfold matchItemDotPat
  rw [hdrop]
  simp [hcls]

theorem matchItemParenPat_none (cls : Char → Bool) (cs : List Char) (c : Char)
    (rest : List Char) (hdrop : cs.dropWhile isPySpace = c :: rest)
    (hne : c ≠ '(') : matchItemParenPat cls cs = none := by
  unfold matchItemParenPat
  rw [hdrop]
  cases rest with
  | nil => rfl
  | cons c2 rest2 =>
    dsimp only
    rw [if_neg (fun hand => hne hand.1)]

theorem matchLitCI_two_none (k1 k2 : Char) (kws : List Char) (c p : Char)
    (rest : List Char) (hk2 : charEqCI k2 p = false) :
    matchLitCI (k1 :: k2 :: kws) (c :: p :: rest) = none := by
  by_cases h1 : charEqCI k1 c <;> simp [matchLitCI, h1, hk2]

theorem matchSectionKwPat_none (k1 k2 : Char) (kws : List Char) (cs : List Char)
    (c p : Char) (rest : List Char)
    (hdrop : cs.dropWhile isPySpace = c :: p :: rest)
    (hk2 : charEqCI k2 p = false) :
    matchSectionKwPat (k1 :: k2 :: kws) cs = none := by
  unfold matchSectionKwPat
  rw [hdrop, matchLitCI_two_none k1 k2 kws c p rest hk2]

theorem matchRomanDotPat_none (cs : List Char) (c p : Char) (rest : List Char)
    (hdrop : cs.dropWhile isPySpace = c :: p :: rest)
    (hpd : p = '.' ∨ p = ')') (hnr : ¬(romanCI c = true ∧ p = '.')) :
    matchRomanDotPat cs = none := by
  have hrp : romanCI p = false := by rcases hpd with h | h <;> rw [h] <;> decide
  unfold matchRomanDotPat
  rw [hdrop]
  dsimp only
  by_cases hc : romanCI c = true
  · have hpdot : p ≠ '.' := fun hh => hnr ⟨hc, hh⟩
    have htake : List.takeWhile romanCI (c :: p :: rest) = [c] := by
      rw [List.takeWhile_cons, if_pos hc, List.takeWhile_cons, if_neg (by simp [hrp])]
    have hdrop2 : List.dropWhile romanCI (c :: p :: rest) = p :: rest := by
      rw [List.dropWhile_cons, if_pos hc, List.dropWhile_cons, if_neg (by simp [hrp])]
    rw [htake, hdrop2]
    rw [if_pos (by simp)]
    dsimp only
    rw [if_neg hpdot]
  · have htake : List.takeWhile romanCI (c :: p :: rest) = [] := by
      rw [List.takeWhile_cons, if_neg hc]
    rw [htake]
    rw [if_neg (by simp)]

theorem matchLetterOfAgreementPat_none (cs : List Char) (c p : Char)
    (rest : List Char) (hdrop : cs.dropWhile isPySpace = c :: p :: rest)
    (hk : charEqCI 'E' p = false) : matchLetterOfAgreementPat cs = none := by
  have h : matchLitCI kwLETTER (c :: p :: rest) = none :=
    matchLitCI_two_none 'L' 'E' ['T', 'T', 'E', 'R'] c p rest hk
  unfold matchLetterOfAgreementPat
  rw [hdrop, h]

theorem matchLoaPat_none (cs : List Char) (c p : Char)
    (rest : List Char) (hdrop : cs.dropWhile isPySpace = c :: p :: rest)
    (hk : charEqCI 'O' p = false) : matchLoaPat cs = none := by
  have h : matchLitCI kwLOA (c :: p :: rest) = none :=
    matchLitCI_two_none 'L' 'O' ['A'] c p rest hk
  unfold matchLoaPat
  rw [hdrop, h]

theorem matchAppendixPat_none (cs : List Char) (c p : Char)
    (rest : List Char) (hdrop : cs.dropWhile isPySpace = c :: p :: rest)
    (hk : charEqCI 'P' p = false) : matchAppendixPat cs = none := by
  have h : matchLitCI kwAPPENDIX (c :: p :: rest) = none :=
    matchLitCI_two_none 'A' 'P' ['P', 'E', 'N', 'D', 'I', 'X'] c p rest hk
  unfold matchAppendixPat
  rw [hdrop, h]

theorem isSectionHeader_none_of_two (cfg : Config) (text : String)
    (fs : Rat) (bold : Bool) (ind : Rat) (c p : Char) (rest : List Char)
    (hdrop : text.data.dropWhile isPySpace = c :: p :: rest)
    (hS : charEqCI 'E' p = false) (hA : charEqCI 'R' p = false)
    (hP : charEqCI 'A' p = false) (hroman : matchRomanDotPat text.data = none) :
    isSectionHeader cfg text fs bold ind = none := by
  have h1 : matchSectionKwPat kwSECTION text.data = none :=
    matchSectionKwPat_none 'S' 'E' ['C', 'T', 'I', 'O', 'N'] text.data c p rest hdrop hS
  have h2 : matchSectionKwPat kwARTICLE text.data = none :=
    matchSectionKwPat_none 'A' 'R' ['T', 'I', 'C', 'L', 'E'] text.data c p rest hdrop hA
  have h3 : matchSectionKwPat kwPART text.data = none :=
    matchSectionKwPat_none 'P' 'A' ['R', 'T'] text.data c p rest hdrop hP
  unfold isSectionHeader
  rw [h1, h2, h3, hroman]
  simp [Option.orElse]

theorem isLoaHeader_none_of_two (cfg : Config) (text : String)
    (fs : Rat) (bold : Bool) (ind : Rat) (c p : Char) (rest : List Char)
    (hdrop : text.data.dropWhile isPySpace = c :: p :: rest)
    (hL : charEqCI 'E' p = false) (hO : charEqCI 'O' p = false)
    (hAp : charEqCI 'P' p = false) :
    isLoaHeader cfg text fs bold ind = none := by
  have h1 := matchLetterOfAgreementPat_none text.data c p rest hdrop hL
  have h2 := matchLoaPat_none text.data c p rest hdrop hO
  have h3 := matchAppendixPat_none text.data c p rest hdrop hAp
  unfold isLoaHeader
  rw [h1, h2, h3]
  simp [Option.orElse]

/-- C6 (amended): letter-case item matching is genuinely case-sensitive —
a fragment whose first non-whitespace character is a lowercase letter is
never a `capital_letter_item`, and one starting with a capital letter is
never a `lowercase_letter_item` — and SECTION/ARTICLE/PART and
LOA/APPENDIX keyword matching is case-insensitive (lower-cased keywords
classify); but the bare roman-numeral section pattern is also compiled
with `re.IGNORECASE`, so a fragment starting with a lowercase letter
followed by '.' or ')' can still be classified as a section — exactly when
the letter is a roman-numeral letter (i,v,x,l,c,d,m) followed by '.'
(otherwise neither the section nor the LOA classifier can match). -/
theorem claim_C6_case_sensitivity_amended :
    (∀ (cfg : Config) (text : String) (ind pin : Rat) (c : Char) (rest : List Char),
      text.data.dropWhile isPySpace = c :: rest → isLowerAZ c = true →
      isCapitalLetterHeader cfg text ind pin = none)
    ∧ (∀ (cfg : Config) (text : String) (ind pin : Rat) (c : Char) (rest : List Char),
      text.data.dropWhile isPySpace = c :: rest → isUpperAZ c = true →
      isLowercaseLetterHeader cfg text ind pin = none)
    ∧ (∀ (cfg : Config) (text : String) (fs : Rat) (bold : Bool) (ind : Rat)
        (c p : Char) (rest : List Char),
      text.data.dropWhile isPySpace = c :: p :: rest → isLowerAZ c = true →
      (p = '.' ∨ p = ')') → ¬(romanCI c = true ∧ p = '.') →
      isSectionHeader cfg text fs bold ind = none
      ∧ isLoaHeader cfg text fs bold ind = none)
    ∧ identifyHeader cfgDefault initState bCiKw
        = Except.ok (some ("section", "1", "Pay"))
    ∧ identifyHeader cfgDefault initState bCiLoa
        = Except.ok (some ("loa", "2", "Stuff")) := by
  refine ⟨?_, ?_, ?_, by decide, by decide⟩
  · intro cfg text ind pin c rest hdrop hlow
    have m1 := matchItemDotPat_none isUpperAZ text.data c rest hdrop (lower_not_upper c hlow)
    have m2 := matchItemParenPat_none isUpperAZ text.data c rest hdrop (lower_ne_paren c hlow)
    unfold isCapitalLetterHeader
    rw [m1, m2]
    simp [Option.orElse]
  · intro cfg text ind pin c rest hdrop hup
    have m1 := matchItemDotPat_none isLowerAZ text.data c rest hdrop (upper_not_lower c hup)
    have m2 := matchItemParenPat_none isLowerAZ text.data c rest hdrop (upper_ne_paren c hup)
    unfold isLowercaseLetterHeader
    rw [m1, m2]
    simp [Option.orElse]
  · intro cfg text fs bold ind c p rest hdrop hlow hpd hnr
    have hS : charEqCI 'E' p = false := by rcases hpd with h | h <;> (rw [h]; decide)
    have hA : charEqCI 'R' p = false := by rcases hpd with h | h <;> (rw [h]; decide)
    have hP : charEqCI 'A' p = false := by rcases hpd with h | h <;> (rw [h]; decide)
    have hO : charEqCI 'O' p = false := by rcases hpd with h | h <;> (rw [h]; decide)
    have hAp : charEqCI 'P' p = false := by rcases hpd with h | h <;> (rw [h]; decide)
    have hroman := matchRomanDotPat_none text.data c p rest hdrop hpd hnr
    exact ⟨isSectionHeader_none_of_two cfg text fs bold ind c p rest hdrop hS hA hP hroman,
           isLoaHeader_none_of_two cfg text fs bold ind c p rest hdrop hS hO hAp⟩

/-- Counterexample to C6: the fragment "i. overview" begins with a
lowercase letter followed by '.', yet is classified as a section (the
roman-numeral pattern is case-insensitive), contradicting "never
classified as ... a section". -/
theorem claim_C6_counterexample :
    bLowerRoman.text = some "i. overview"
    ∧ identifyHeader cfgDefault initState bLowerRoman
      = Except.ok (some ("section", "i", "overview")) := by
  decide

/-- Witness for C6 (amended): concrete lowercase/uppercase item fragments
discharging each hypothesis. -/
theorem claim_C6_witness :
    isCapitalLetterHeader cfgDefault "a. item" 90 72 = none
    ∧ isLowercaseLetterHeader cfgDefault "A. Item" 90 72 = none
    ∧ (isSectionHeader cfgDefault "a. item" 10 false 72 = none
      ∧ isLoaHeader cfgDefault "a. item" 10 false 72 = none) :=
  ⟨claim_C6_case_sensitivity_amended.1 cfgDefault "a. item" 90 72 'a' ['.', ' ', 'i', 't', 'e', 'm']
      (by decide) (by decide),
   claim_C6_case_sensitivity_amended.2.1 cfgDefault "A. Item" 90 72 'A' ['.', ' ', 'I', 't', 'e', 'm']
      (by decide) (by decide),
   claim_C6_case_sensitivity_amended.2.2.1 cfgDefault "a. item" 10 false 72 'a' '.'
      [' ', 'i', 't', 'e', 'm'] (by decide) (by decide) (Or.inl rfl) (by decide)⟩

theorem pyDictSet_idem (d : PDict) (k : String) (v : PVal) :
    pyDictSet (pyDictSet d k v) k v = pyDictSet d k v := by
  induction d with
  | nil => simp [pyDictSet]
  | cons hd t ih =>
    obtain ⟨k0, v0⟩ := hd
    by_cases hk : k0 = k
    · simp [pyDictSet, hk]
    · simp [pyDictSet, hk, ih]

theorem pdictLookup_set_self (d : PDict) (k : String) (v : PVal) :
    pdictLookup (pyDictSet d k v) k = some v := by
  induction d with
  | nil => simp [pyDictSet, pdictLookup]
  | cons hd t ih =>
    obtain ⟨k0, v0⟩ := hd
    by_cases hk : k0 = k
    · simp [pyDictSet, hk, pdictLookup]
    · simp [pyDictSet, hk, pdictLookup, ih]

/-- C9: serialization is idempotent.  `convert_node_to_json` is a pure
function of the tree, and flattening the same caller-held document twice —
the second call seeing the `processing_info` mutation left by the first —
produces identical output both times (setting `"flattened": True` again is
a no-op on the dictionary). -/
theorem claim_C9_serialization_idempotent (t : HNodeTree) (doc : DocumentJson) :
    convert_node_to_json t = convert_node_to_json t
    ∧ (flatten_hierarchy_for_compatibility
        ((flatten_hierarchy_for_compatibility doc).1)).2
      = (flatten_hierarchy_for_compatibility doc).2 := by
  refine ⟨rfl, ?_⟩
  cases hpi : doc.processing_info with
  | none => simp [flatten_hierarchy_for_compatibility, hpi]
  | some pinfo => simp [flatten_hierarchy_for_compatibility, hpi, pyDictSet_idem]

/-- C10: `flatten_hierarchy_for_compatibility` mutates its input: when the
document has a `processing_info` dictionary, the key `"flattened": True`
is inserted into that dictionary, the caller's document now holds the
updated dictionary, and the output aliases the very same dictionary. -/
theorem claim_C10_flatten_mutates_processing_info (doc : DocumentJson)
    (pinfo : PDict) (h : doc.processing_info = some pinfo) :
    (flatten_hierarchy_for_compatibility doc).1.processing_info
      = some (pyDictSet pinfo "flattened" (PVal.bool true))
    ∧ (flatten_hierarchy_for_compatibility doc).2.processing_info
      = (flatten_hierarchy_for_compatibility doc).1.processing_info
    ∧ pdictLookup (pyDictSet pinfo "flattened" (PVal.bool true)) "flattened"
      = some (PVal.bool true) := by
  refine ⟨?_, ?_, pdictLookup_set_self pinfo _ _⟩ <;>
    simp [flatten_hierarchy_for_compatibility, h]

/-- Witness for C10 at the concrete document `docW`. -/
theorem claim_C10_witness :
    (flatten_hierarchy_for_compatibility docW).1.processing_info
      = some (pyDictSet [("parser_version", PVal.str "hierarchical_v1.0")]
          "flattened" (PVal.bool true))
    ∧ (flatten_hierarchy_for_compatibility docW).2.processing_info
      = (flatten_hierarchy_for_compatibility docW).1.processing_info
    ∧ pdictLookup (pyDictSet [("parser_version", PVal.str "hierarchical_v1.0")]
        "flattened" (PVal.bool true)) "flattened" = some (PVal.bool true) :=
  claim_C10_flatten_mutates_processing_info docW
    [("parser_version", PVal.str "hierarchical_v1.0")] rfl
